import Mathlib

/-!
Shallow embedding of `src/smith_waterman.py` (class `SmithWaterman`):
the Smith–Waterman local-alignment engine, its scoring providers
(`delta` in nucleotide and amino-acid mode), the max-score marker,
the traceback, and the matrix-export cell rendering.

Sequences are `List Char`; scores are `Int` (Python ints are unbounded).

The engine `smith_waterman` below mirrors the source's iterative
construction: the matrix is a list of rows built row by row
(`init_matrix` boundary plus the double loop), the max-score marker is
folded over the cells in row-major scan order, and the traceback walks
the finished matrix from the marker.  The recurrence `swEntry` restates
the per-cell computation as a recursion and is proved equal to the
constructed matrix (`entryAt_swMatrixL`); the inductive proofs work on
`swEntry`.
-/

namespace SW

/-- Direction markers appended to a cell's direction list
(`direct_diagonal`, `direct_up`, `direct_left`, `direct_zero`). -/
inductive Direction
  | diagonal
  | up
  | left
  | zero
deriving DecidableEq, Repr

/-- One interior DP cell: the dict built in `smith_waterman`, with keys
`param_diagonal` ('d'), `param_up` ('u'), `param_left` ('l'),
`param_zero` ('z'), `param_maximum` ('m'), `param_direction` ('a'). -/
structure Cell where
  d : Int
  u : Int
  l : Int
  z : Int
  m : Int
  a : List Direction
deriving DecidableEq, Repr

/-- A matrix entry: the border cells of row 0 / column 0 are plain
integers (`self.ZERO`, written by `init_matrix`), the interior cells are
dicts. -/
inductive Entry
  | int : Int → Entry
  | cell : Cell → Entry
deriving DecidableEq, Repr

/-- `options_x[self.param_maximum] if isinstance(options_x, dict) else options_x`. -/
def Entry.value : Entry → Int
  | .int v => v
  | .cell c => c.m

/-- Nucleotide-mode `delta`: upper-case both symbols, `MATCH` if equal,
else `MISMATCH_PENALTY`. -/
def delta_nt (mtch mism : Int) (si sj : Char) : Int :=
  if si.toUpper = sj.toUpper then mtch else mism

/-- Amino-acid-mode `delta`: upper-case both symbols, look up the
concatenated key `si + sj` in the substitution table, and on lookup
failure (the `except` branch) the reversed key `sj + si`; a second
failure propagates (`none`, the uncaught `KeyError`). -/
def delta_aa (tbl : List (String × Int)) (si sj : Char) : Option Int :=
  match List.lookup (String.mk [si.toUpper, sj.toUpper]) tbl with
  | some v => some v
  | none => List.lookup (String.mk [sj.toUpper, si.toUpper]) tbl

/-- The body of the construction loop for one interior cell, given the
already-final values of the diagonal, up and left neighbours and the
substitution score `sc` of the current symbol pair:
`match`, `delete`, `insert`, `maximum`, and the direction list built by
appending `zero` (when all three candidates are strictly negative),
then `diagonal`, `left`, `up` for each candidate equal to the maximum
(the pristine cell's direction list is empty, so the appends start from
`[]`).  `dirList` is the direction-list part, with the four append
conditions abstracted: in order, append `zero`, then `diagonal`, then
`left`, then `up`. -/
def dirList (zeroc diagc leftc upc : Prop) [Decidable zeroc] [Decidable diagc]
    [Decidable leftc] [Decidable upc] : List Direction :=
  let dir0 : List Direction := if zeroc then [.zero] else []
  let dir1 := if diagc then dir0 ++ [.diagonal] else dir0
  let dir2 := if leftc then dir1 ++ [.left] else dir1
  if upc then dir2 ++ [.up] else dir2

/-- One computed interior cell (see `dirList` for its direction list). -/
def mkCell (vd vu vl sc gap : Int) : Cell :=
  let mtc := vd + sc
  let del := vl + gap
  let ins := vu + gap
  let mx := max (max (max mtc del) ins) 0
  { d := mtc, u := ins, l := del, z := 0, m := mx,
    a := dirList (mtc < 0 ∧ del < 0 ∧ ins < 0) (mx = mtc) (mx = del) (mx = ins) }

/-- The inner loop `for j in range(1, n + 1)` of the construction pass,
producing the interior entries of one row: `cs` is the remaining suffix
of `seq1`, `prev` the suffix of the previous (already final) row starting
at the diagonal neighbour, `vl` the value of the entry just written to
the left, and `s2c` the row's symbol `arr_seq2[i-1]`. -/
def rowAux (dlt : Char → Char → Int) (gap : Int) (s2c : Char) :
    List Char → List Entry → Int → List Entry
  | [], _, _ => []
  | c :: cs, prev, vl =>
    match prev with
    | [] => []
    | pd :: prest =>
      let cl := mkCell pd.value (prest.headD (Entry.int 0)).value vl (dlt c s2c) gap
      Entry.cell cl :: rowAux dlt gap s2c cs prest cl.m

/-- The outer loop `for i in range(1, m + 1)`: each row starts with the
`init_matrix` boundary entry `ZERO` and is computed from the previous
row. -/
def swRowsAux (dlt : Char → Char → Int) (gap : Int) (s1 : List Char) :
    List Entry → List Char → List (List Entry)
  | _, [] => []
  | prev, c :: cs =>
    let r := Entry.int 0 :: rowAux dlt gap c s1 prev 0
    r :: swRowsAux dlt gap s1 r cs

/-- The full `(m+1) × (n+1)` matrix after the construction pass of
`smith_waterman(seq1, seq2)`: row 0 is the `init_matrix` boundary row of
integer zeros. -/
def swMatrixL (dlt : Char → Char → Int) (gap : Int) (s1 s2 : List Char) :
    List (List Entry) :=
  let row0 := List.replicate (s1.length + 1) (Entry.int 0)
  row0 :: swRowsAux dlt gap s1 row0 s2

/-- `matrix[i][j]` lookup. -/
def entryAt (mat : List (List Entry)) (i j : Nat) : Entry :=
  (mat.getD i []).getD j (Entry.int 0)

/-- The final content of matrix cell `(i, j)` as a recurrence: row 0 and
column 0 are the integer `ZERO` boundary, and an interior cell
`(i+1, j+1)` is computed from its three already-final neighbours and
`delta(arr_seq1[j], arr_seq2[i])` (0-based indexing).  Proved equal to
the iteratively constructed matrix in `entryAt_swMatrixL`. -/
def swEntry (dlt : Char → Char → Int) (gap : Int) (s1 s2 : List Char) :
    Nat → Nat → Entry
  | 0, _ => .int 0
  | _ + 1, 0 => .int 0
  | i + 1, j + 1 =>
    let vd := (swEntry dlt gap s1 s2 i j).value
    let vu := (swEntry dlt gap s1 s2 i (j + 1)).value
    let vl := (swEntry dlt gap s1 s2 (i + 1) j).value
    .cell (mkCell vd vu vl (dlt (s1.getD j ' ') (s2.getD i ' ')) gap)
termination_by i j => i + j
decreasing_by all_goals omega

/-- The running max-score marker `self.MAX_SCORE`
(`{'score': ..., 'row': ..., 'col': ...}`), initialised in `__init__` to
`{'score': 0, 'row': 0, 'col': 0}`. -/
structure MaxScore where
  score : Int
  row : Nat
  col : Nat
deriving DecidableEq, Repr

/-- One marker update: `if maximum > MAX_SCORE['score']` store
`(maximum, i, j)`, else keep the marker (so an equal later maximum never
overwrites it). -/
def scanCell (val : Nat → Nat → Int) (ms : MaxScore) (i j : Nat) : MaxScore :=
  if val i j > ms.score then ⟨val i j, i, j⟩ else ms

/-- The marker updates of the inner construction loop
`for j in range(1, n + 1)` over row `i`. -/
def scanRow (val : Nat → Nat → Int) (i n : Nat) (ms : MaxScore) : MaxScore :=
  (List.range n).foldl (fun ms j => scanCell val ms i (j + 1)) ms

/-- The marker updates of the whole construction pass
(`for i in range(1, m + 1)`, row-major), starting from the `__init__`
marker `(0, 0, 0)`.  Each cell's `maximum` is final when scanned, so
scanning the finished matrix is the same as the source's interleaved
update. -/
def scanAll (val : Nat → Nat → Int) (m n : Nat) : MaxScore :=
  (List.range m).foldl (fun ms i => scanRow val (i + 1) n ms) ⟨0, 0, 0⟩

/-- The max-score marker after the construction pass of
`smith_waterman(seq1, seq2)`: `m = len(seq2)` rows, `n = len(seq1)`
columns. -/
def swMax (dlt : Char → Char → Int) (gap : Int) (s1 s2 : List Char) : MaxScore :=
  scanAll (fun i j => (entryAt (swMatrixL dlt gap s1 s2) i j).value)
    s2.length s1.length

/-- One row's worth of traceback steps (`j` decreasing while `i` is
fixed); `lower` continues the walk one row up.  The source appends the
emitted characters to `align1`/`align2` and reverses both at the end, so
here the pair emitted at the current cell is appended after the
recursively produced prefix.  Priority among tied directions: diagonal,
then left, then up.  The two fall-through results (`Entry.int`, and a
dict cell with none of the three markers while its maximum is non-zero —
in the source the former cannot be subscripted and the latter loops
forever) never arise on a constructed matrix: interior cells are dicts,
and any interior cell with non-zero maximum carries a directional
marker (`mkCell_directions`). -/
def tracebackRow (cell : Nat → Nat → Entry) (s1 s2 : List Char)
    (lower : Nat → List Char × List Char) (i : Nat) :
    Nat → List Char × List Char
  | 0 => ([], [])
  | j + 1 =>
    match cell (i + 1) (j + 1) with
    | .int _ => ([], [])
    | .cell c =>
      if c.m = 0 then ([], [])
      else if Direction.diagonal ∈ c.a then
        let p := lower j
        (p.1 ++ [s1.getD j ' '], p.2 ++ [s2.getD i ' '])
      else if Direction.left ∈ c.a then
        let p := tracebackRow cell s1 s2 lower i j
        (p.1 ++ [s1.getD j ' '], p.2 ++ ['-'])
      else if Direction.up ∈ c.a then
        let p := lower (j + 1)
        (p.1 ++ ['-'], p.2 ++ [s2.getD i ' '])
      else ([], [])

/-- The traceback loop `while i > 0 and j > 0`, as a function of the
start position `(i, j)`; it stops at row 0, at column 0, or at a cell
whose maximum is 0. -/
def tracebackAux (cell : Nat → Nat → Entry) (s1 s2 : List Char) :
    Nat → Nat → List Char × List Char
  | 0 => fun _ => ([], [])
  | i + 1 => tracebackRow cell s1 s2 (tracebackAux cell s1 s2 i) i

/-- `smith_waterman(seq1, seq2)`: construct the matrix, fold the
max-score marker over it in scan order, trace back from the marker's
`(row, col)`, and return `(align1, align2, MAX_SCORE['score'], matrix)`. -/
def smith_waterman (dlt : Char → Char → Int) (gap : Int) (seq1 seq2 : List Char) :
    List Char × List Char × Int × List (List Entry) :=
  let matrix := swMatrixL dlt gap seq1 seq2
  let ms := swMax dlt gap seq1 seq2
  let p := tracebackAux (fun i j => entryAt matrix i j) seq1 seq2 ms.row ms.col
  (p.1, p.2, ms.score, matrix)

/-- The per-cell rendering of `matrix_format`: a dict cell renders as the
single code checked in this order — `'z'` if the zero marker is in the
direction list, else `'d'` for diagonal, else `'l'` for left, else `'u'`
for up; a cell with none of the four markers contributes nothing
(`none`). -/
def formatCode (c : Cell) : Option Char :=
  if Direction.zero ∈ c.a then some 'z'
  else if Direction.diagonal ∈ c.a then some 'd'
  else if Direction.left ∈ c.a then some 'l'
  else if Direction.up ∈ c.a then some 'u'
  else none

/-- The rendering priority as the spec states it (`d > l > u > z`), for
comparison with `formatCode`: `'d'` if diagonal is in the direction set,
else `'l'` if left is, else `'u'` if up is, else `'z'`. -/
def specRenderCode (c : Cell) : Char :=
  if Direction.diagonal ∈ c.a then 'd'
  else if Direction.left ∈ c.a then 'l'
  else if Direction.up ∈ c.a then 'u'
  else 'z'

/-- The cell recurrence with a fallible scoring provider (amino-acid
mode, where `delta` can raise an uncaught `KeyError`): `none` models the
exception propagating out of the construction loop, so a failed lookup
yields no cell at all — in particular never a cell scored 0. -/
def swEntryO (dltO : Char → Char → Option Int) (gap : Int) (s1 s2 : List Char) :
    Nat → Nat → Option Entry
  | 0, _ => some (.int 0)
  | _ + 1, 0 => some (.int 0)
  | i + 1, j + 1 => do
    let ed ← swEntryO dltO gap s1 s2 i j
    let eu ← swEntryO dltO gap s1 s2 i (j + 1)
    let el ← swEntryO dltO gap s1 s2 (i + 1) j
    let sc ← dltO (s1.getD j ' ') (s2.getD i ' ')
    pure (.cell (mkCell ed.value eu.value el.value sc gap))
termination_by i j => i + j
decreasing_by all_goals omega

/-! ### Facts about the four-way maximum -/

lemma max4_nonneg (a b c : Int) : 0 ≤ max (max (max a b) c) 0 :=
  le_max_right _ _

lemma max4_ge_left (a b c : Int) : a ≤ max (max (max a b) c) 0 :=
  le_trans (le_trans (le_max_left _ _) (le_max_left _ _)) (le_max_left _ _)

lemma max4_ge_mid (a b c : Int) : b ≤ max (max (max a b) c) 0 :=
  le_trans (le_trans (le_max_right _ _) (le_max_left _ _)) (le_max_left _ _)

lemma max4_ge_right (a b c : Int) : c ≤ max (max (max a b) c) 0 :=
  le_trans (le_max_right _ _) (le_max_left _ _)

lemma max4_of_all_neg (a b c : Int) (ha : a < 0) (hb : b < 0) (hc : c < 0) :
    max (max (max a b) c) 0 = 0 := by
  simp only [max_def]
  split_ifs <;> omega

lemma max4_cases (a b c : Int) :
    max (max (max a b) c) 0 = a ∨ max (max (max a b) c) 0 = b ∨
      max (max (max a b) c) 0 = c ∨ max (max (max a b) c) 0 = 0 := by
  simp only [max_def]
  split_ifs <;> simp

lemma max4_swap_mid_right (a b c : Int) :
    max (max (max a b) c) 0 = max (max (max a c) b) 0 := by
  simp only [max_def]
  split_ifs <;> omega

/-! ### Structure of one computed cell -/

lemma mem_dirList_zero (zeroc diagc leftc upc : Prop) [Decidable zeroc]
    [Decidable diagc] [Decidable leftc] [Decidable upc] :
    Direction.zero ∈ dirList zeroc diagc leftc upc ↔ zeroc := by
  unfold dirList
  split_ifs <;> simp_all

lemma mem_dirList_diagonal (zeroc diagc leftc upc : Prop) [Decidable zeroc]
    [Decidable diagc] [Decidable leftc] [Decidable upc] :
    Direction.diagonal ∈ dirList zeroc diagc leftc upc ↔ diagc := by
  unfold dirList
  split_ifs <;> simp_all

lemma mem_dirList_left (zeroc diagc leftc upc : Prop) [Decidable zeroc]
    [Decidable diagc] [Decidable leftc] [Decidable upc] :
    Direction.left ∈ dirList zeroc diagc leftc upc ↔ leftc := by
  unfold dirList
  split_ifs <;> simp_all

lemma mem_dirList_up (zeroc diagc leftc upc : Prop) [Decidable zeroc]
    [Decidable diagc] [Decidable leftc] [Decidable upc] :
    Direction.up ∈ dirList zeroc diagc leftc upc ↔ upc := by
  unfold dirList
  split_ifs <;> simp_all

lemma dirList_eq_nil (zeroc diagc leftc upc : Prop) [Decidable zeroc]
    [Decidable diagc] [Decidable leftc] [Decidable upc] :
    dirList zeroc diagc leftc upc = [] ↔ ¬zeroc ∧ ¬diagc ∧ ¬leftc ∧ ¬upc := by
  unfold dirList
  split_ifs <;> simp_all

lemma mkCell_d (vd vu vl sc gap : Int) : (mkCell vd vu vl sc gap).d = vd + sc := rfl

lemma mkCell_l (vd vu vl sc gap : Int) : (mkCell vd vu vl sc gap).l = vl + gap := rfl

lemma mkCell_u (vd vu vl sc gap : Int) : (mkCell vd vu vl sc gap).u = vu + gap := rfl

lemma mkCell_m (vd vu vl sc gap : Int) :
    (mkCell vd vu vl sc gap).m =
      max (max (max (vd + sc) (vl + gap)) (vu + gap)) 0 := rfl

lemma mkCell_m_eq (vd vu vl sc gap : Int) :
    (mkCell vd vu vl sc gap).m =
      max (max (max (mkCell vd vu vl sc gap).d (mkCell vd vu vl sc gap).l)
        (mkCell vd vu vl sc gap).u) 0 := rfl

lemma mkCell_m_nonneg (vd vu vl sc gap : Int) : 0 ≤ (mkCell vd vu vl sc gap).m :=
  max4_nonneg _ _ _

lemma mkCell_a (vd vu vl sc gap : Int) :
    (mkCell vd vu vl sc gap).a =
      dirList (vd + sc < 0 ∧ vl + gap < 0 ∧ vu + gap < 0)
        ((mkCell vd vu vl sc gap).m = vd + sc)
        ((mkCell vd vu vl sc gap).m = vl + gap)
        ((mkCell vd vu vl sc gap).m = vu + gap) := rfl

lemma mkCell_mem_zero (vd vu vl sc gap : Int) :
    Direction.zero ∈ (mkCell vd vu vl sc gap).a ↔
      vd + sc < 0 ∧ vl + gap < 0 ∧ vu + gap < 0 := by
  rw [mkCell_a, mem_dirList_zero]

lemma mkCell_mem_diagonal (vd vu vl sc gap : Int) :
    Direction.diagonal ∈ (mkCell vd vu vl sc gap).a ↔
      (mkCell vd vu vl sc gap).m = vd + sc := by
  rw [mkCell_a, mem_dirList_diagonal]

lemma mkCell_mem_left (vd vu vl sc gap : Int) :
    Direction.left ∈ (mkCell vd vu vl sc gap).a ↔
      (mkCell vd vu vl sc gap).m = vl + gap := by
  rw [mkCell_a, mem_dirList_left]

lemma mkCell_mem_up (vd vu vl sc gap : Int) :
    Direction.up ∈ (mkCell vd vu vl sc gap).a ↔
      (mkCell vd vu vl sc gap).m = vu + gap := by
  rw [mkCell_a, mem_dirList_up]

lemma mkCell_a_ne_nil (vd vu vl sc gap : Int) : (mkCell vd vu vl sc gap).a ≠ [] := by
  rw [mkCell_a, Ne, dirList_eq_nil, mkCell_m]
  have hc := max4_cases (vd + sc) (vl + gap) (vu + gap)
  have g1 := max4_ge_left (vd + sc) (vl + gap) (vu + gap)
  have g2 := max4_ge_mid (vd + sc) (vl + gap) (vu + gap)
  have g3 := max4_ge_right (vd + sc) (vl + gap) (vu + gap)
  rintro ⟨hz, hd, hl, hu⟩
  omega

/-! ### Unfolding equations for the cell recurrence -/

lemma swEntry_row0 (dlt : Char → Char → Int) (gap : Int) (s1 s2 : List Char)
    (j : Nat) : swEntry dlt gap s1 s2 0 j = .int 0 := by
  rw [swEntry]

lemma swEntry_col0 (dlt : Char → Char → Int) (gap : Int) (s1 s2 : List Char)
    (i : Nat) : swEntry dlt gap s1 s2 (i + 1) 0 = .int 0 := by
  rw [swEntry]

lemma swEntry_succ (dlt : Char → Char → Int) (gap : Int) (s1 s2 : List Char)
    (i j : Nat) :
    swEntry dlt gap s1 s2 (i + 1) (j + 1) =
      .cell (mkCell (swEntry dlt gap s1 s2 i j).value
        (swEntry dlt gap s1 s2 i (j + 1)).value
        (swEntry dlt gap s1 s2 (i + 1) j).value
        (dlt (s1.getD j ' ') (s2.getD i ' ')) gap) := by
  rw [swEntry]

lemma swEntry_value_nonneg (dlt : Char → Char → Int) (gap : Int)
    (s1 s2 : List Char) (i j : Nat) : 0 ≤ (swEntry dlt gap s1 s2 i j).value := by
  match i, j with
  | 0, j => rw [swEntry_row0]; exact le_refl 0
  | i + 1, 0 => rw [swEntry_col0]; exact le_refl 0
  | i + 1, j + 1 => rw [swEntry_succ]; exact mkCell_m_nonneg _ _ _ _ _

/-! ### The iteratively built matrix realises the cell recurrence -/

lemma headD_eq_getD (l : List Entry) (d : Entry) : l.headD d = l.getD 0 d := by
  cases l <;> rfl

lemma replicate_getD_int (k j : Nat) :
    (List.replicate k (Entry.int 0)).getD j (Entry.int 0) = Entry.int 0 := by
  induction k generalizing j with
  | zero => rfl
  | succ k ih =>
    cases j with
    | zero => rfl
    | succ j => exact ih j

lemma rowAux_length (dlt : Char → Char → Int) (gap : Int) (s2c : Char) :
    ∀ (cs : List Char) (prev : List Entry) (vl : Int),
      cs.length < prev.length →
      (rowAux dlt gap s2c cs prev vl).length = cs.length := by
  intro cs
  induction cs with
  | nil => intro prev vl _; rfl
  | cons c cs ih =>
    intro prev vl h
    match prev with
    | [] => exact absurd h (by simp)
    | pd :: prest =>
      simp only [rowAux, List.length_cons]
      rw [ih prest _ (by simpa using Nat.lt_of_succ_lt_succ h)]

lemma rowAux_getD (dlt : Char → Char → Int) (gap : Int) (s1 s2 : List Char) (i0 : Nat) :
    ∀ (cs : List Char) (j0 : Nat) (prev : List Entry) (vl : Int),
      cs = s1.drop j0 →
      prev.length = cs.length + 1 →
      (∀ t, t ≤ cs.length → prev.getD t (Entry.int 0) = swEntry dlt gap s1 s2 i0 (j0 + t)) →
      vl = (swEntry dlt gap s1 s2 (i0 + 1) j0).value →
      ∀ k, k < cs.length →
        (rowAux dlt gap (s2.getD i0 ' ') cs prev vl).getD k (Entry.int 0) =
          swEntry dlt gap s1 s2 (i0 + 1) (j0 + 1 + k) := by
  intro cs
  induction cs with
  | nil => intro j0 prev vl _ _ _ _ k hk; exact absurd hk (Nat.not_lt_zero k)
  | cons c cs ih =>
    intro j0 prev vl hcs hlen hprev hvl k hk
    have hc : c = s1.getD j0 ' ' := by
      have h0 : (s1.drop j0)[0]? = some c := by rw [← hcs]; simp
      rw [List.getElem?_drop] at h0
      rw [List.getD_eq_getElem?_getD]
      simp only [Nat.add_zero] at h0
      rw [h0]
      rfl
    have hcs' : cs = s1.drop (j0 + 1) := by
      rw [← List.tail_drop, ← hcs]
      rfl
    match prev, hlen with
    | pd :: prest, hlen =>
      have hlen' : prest.length = cs.length + 1 := by
        simpa using hlen
      have hpd : pd = swEntry dlt gap s1 s2 i0 j0 := by
        have h := hprev 0 (Nat.zero_le _)
        simpa using h
      have hpu : prest.headD (Entry.int 0) = swEntry dlt gap s1 s2 i0 (j0 + 1) := by
        have h := hprev 1 (by simp only [List.length_cons]; omega)
        rw [headD_eq_getD]
        simpa using h
      have hcell : swEntry dlt gap s1 s2 (i0 + 1) (j0 + 1) =
          Entry.cell (mkCell pd.value (prest.headD (Entry.int 0)).value vl
            (dlt c (s2.getD i0 ' ')) gap) := by
        rw [swEntry_succ, ← hpd, ← hpu, ← hvl, ← hc]
      cases k with
      | zero =>
        have heq : (rowAux dlt gap (s2.getD i0 ' ') (c :: cs) (pd :: prest) vl).getD 0
            (Entry.int 0) =
            Entry.cell (mkCell pd.value (prest.headD (Entry.int 0)).value vl
              (dlt c (s2.getD i0 ' ')) gap) := rfl
        rw [heq, ← hcell]
      | succ k =>
        have heq : (rowAux dlt gap (s2.getD i0 ' ') (c :: cs) (pd :: prest) vl).getD (k + 1)
            (Entry.int 0) =
            (rowAux dlt gap (s2.getD i0 ' ') cs prest
              (mkCell pd.value (prest.headD (Entry.int 0)).value vl
                (dlt c (s2.getD i0 ' ')) gap).m).getD k (Entry.int 0) := rfl
        rw [heq]
        have hprev' : ∀ t, t ≤ cs.length →
            prest.getD t (Entry.int 0) = swEntry dlt gap s1 s2 i0 (j0 + 1 + t) := by
          intro t ht
          have h := hprev (t + 1) (by simp only [List.length_cons]; omega)
          have hidx : j0 + (t + 1) = j0 + 1 + t := by omega
          rw [hidx] at h
          exact h
        have hvl' : (mkCell pd.value (prest.headD (Entry.int 0)).value vl
            (dlt c (s2.getD i0 ' ')) gap).m =
            (swEntry dlt gap s1 s2 (i0 + 1) (j0 + 1)).value := by
          rw [hcell]
          rfl
        have h := ih (j0 + 1) prest
          (mkCell pd.value (prest.headD (Entry.int 0)).value vl
            (dlt c (s2.getD i0 ' ')) gap).m hcs' hlen' hprev' hvl' k
          (by simp only [List.length_cons] at hk; omega)
        have hidx : j0 + 1 + 1 + k = j0 + 1 + (k + 1) := by omega
        rw [hidx] at h
        exact h

lemma swRowsAux_getD (dlt : Char → Char → Int) (gap : Int) (s1 s2 : List Char) :
    ∀ (s2t : List Char) (i0 : Nat) (prev : List Entry),
      s2t = s2.drop i0 →
      prev.length = s1.length + 1 →
      (∀ t, t ≤ s1.length → prev.getD t (Entry.int 0) = swEntry dlt gap s1 s2 i0 t) →
      ∀ k, k < s2t.length → ∀ j, j ≤ s1.length →
        ((swRowsAux dlt gap s1 prev s2t).getD k []).getD j (Entry.int 0) =
          swEntry dlt gap s1 s2 (i0 + 1 + k) j := by
  intro s2t
  induction s2t with
  | nil => intro i0 prev _ _ _ k hk; exact absurd hk (Nat.not_lt_zero k)
  | cons c cs ih =>
    intro i0 prev hs2t hlen hprev k hk j hj
    have hc : c = s2.getD i0 ' ' := by
      have h0 : (s2.drop i0)[0]? = some c := by rw [← hs2t]; simp
      rw [List.getElem?_drop] at h0
      rw [List.getD_eq_getElem?_getD]
      simp only [Nat.add_zero] at h0
      rw [h0]
      rfl
    have hcs' : cs = s2.drop (i0 + 1) := by
      rw [← List.tail_drop, ← hs2t]
      rfl
    have hrow : ∀ j, j ≤ s1.length →
        (Entry.int 0 :: rowAux dlt gap c s1 prev 0).getD j (Entry.int 0) =
          swEntry dlt gap s1 s2 (i0 + 1) j := by
      intro j hj
      cases j with
      | zero => rw [swEntry_col0]; rfl
      | succ j =>
        have heq : (Entry.int 0 :: rowAux dlt gap c s1 prev 0).getD (j + 1) (Entry.int 0) =
            (rowAux dlt gap c s1 prev 0).getD j (Entry.int 0) := rfl
        rw [heq, hc]
        have hprev' : ∀ t, t ≤ s1.length →
            prev.getD t (Entry.int 0) = swEntry dlt gap s1 s2 i0 (0 + t) := by
          intro t ht
          rw [Nat.zero_add]
          exact hprev t ht
        have hvl0 : (0 : Int) = (swEntry dlt gap s1 s2 (i0 + 1) 0).value := by
          rw [swEntry_col0]
          rfl
        have h := rowAux_getD dlt gap s1 s2 i0 s1 0 prev 0 (List.drop_zero s1).symm
          (by rw [hlen]) hprev' hvl0 j (by omega)
        have hidx : 0 + 1 + j = j + 1 := by omega
        rw [hidx] at h
        exact h
    have hrlen : (Entry.int 0 :: rowAux dlt gap c s1 prev 0).length = s1.length + 1 := by
      simp only [List.length_cons]
      rw [rowAux_length dlt gap c s1 prev 0 (by omega)]
    cases k with
    | zero =>
      have heq : (swRowsAux dlt gap s1 prev (c :: cs)).getD 0 [] =
          Entry.int 0 :: rowAux dlt gap c s1 prev 0 := rfl
      rw [heq]
      exact hrow j hj
    | succ k =>
      have heq : (swRowsAux dlt gap s1 prev (c :: cs)).getD (k + 1) [] =
          (swRowsAux dlt gap s1 (Entry.int 0 :: rowAux dlt gap c s1 prev 0) cs).getD k [] := rfl
      rw [heq]
      have h := ih (i0 + 1) _ hcs' hrlen hrow k
        (by simp only [List.length_cons] at hk; omega) j hj
      have hidx : i0 + 1 + 1 + k = i0 + 1 + (k + 1) := by omega
      rw [hidx] at h
      exact h

/-- The matrix built by the construction loops agrees with the cell
recurrence on every in-range position. -/
lemma entryAt_swMatrixL (dlt : Char → Char → Int) (gap : Int) (s1 s2 : List Char)
    (i j : Nat) (hi : i ≤ s2.length) (hj : j ≤ s1.length) :
    entryAt (swMatrixL dlt gap s1 s2) i j = swEntry dlt gap s1 s2 i j := by
  cases i with
  | zero =>
    rw [swEntry_row0]
    show (List.replicate (s1.length + 1) (Entry.int 0)).getD j (Entry.int 0) = Entry.int 0
    exact replicate_getD_int _ _
  | succ i =>
    show ((swRowsAux dlt gap s1 (List.replicate (s1.length + 1) (Entry.int 0)) s2).getD i
      []).getD j (Entry.int 0) = _
    have hprev : ∀ t, t ≤ s1.length →
        (List.replicate (s1.length + 1) (Entry.int 0)).getD t (Entry.int 0) =
          swEntry dlt gap s1 s2 0 t := by
      intro t _
      rw [replicate_getD_int, swEntry_row0]
    have h := swRowsAux_getD dlt gap s1 s2 s2 0 _ (List.drop_zero s2).symm
      (by simp) hprev i (by omega) j hj
    have hidx : 0 + 1 + i = i + 1 := by omega
    rw [hidx] at h
    exact h

/-! ### The max-score marker scan -/

lemma scanRow_succ (val : Nat → Nat → Int) (i n : Nat) (ms : MaxScore) :
    scanRow val i (n + 1) ms = scanCell val (scanRow val i n ms) i (n + 1) := by
  unfold scanRow
  rw [List.range_succ, List.foldl_append]
  rfl

lemma scanAll_succ (val : Nat → Nat → Int) (m n : Nat) :
    scanAll val (m + 1) n = scanRow val (m + 1) n (scanAll val m n) := by
  unfold scanAll
  rw [List.range_succ, List.foldl_append]
  rfl

/-- Behaviour of one inner scan loop: the score never decreases; either
the marker is untouched, or it now points into row `i` at the first
column of that row attaining the new score; and afterwards the score
bounds every value of row `i`. -/
lemma scanRow_spec (val : Nat → Nat → Int) (i : Nat) :
    ∀ (n : Nat) (ms : MaxScore),
      ms.score ≤ (scanRow val i n ms).score ∧
      (scanRow val i n ms = ms ∨
        ((scanRow val i n ms).row = i ∧ 1 ≤ (scanRow val i n ms).col ∧
          (scanRow val i n ms).col ≤ n ∧
          val i (scanRow val i n ms).col = (scanRow val i n ms).score ∧
          ms.score < (scanRow val i n ms).score ∧
          ∀ j, 1 ≤ j → j < (scanRow val i n ms).col → val i j < (scanRow val i n ms).score)) ∧
      (∀ j, 1 ≤ j → j ≤ n → val i j ≤ (scanRow val i n ms).score) := by
  intro n
  induction n with
  | zero =>
    intro ms
    refine ⟨le_refl _, Or.inl rfl, ?_⟩
    intro j h1 h2
    omega
  | succ n ih =>
    intro ms
    obtain ⟨ih1, ih2, ih3⟩ := ih ms
    rw [scanRow_succ]
    by_cases h : val i (n + 1) > (scanRow val i n ms).score
    · have hres : scanCell val (scanRow val i n ms) i (n + 1) =
          ⟨val i (n + 1), i, n + 1⟩ := by
        unfold scanCell
        rw [if_pos h]
      rw [hres]
      refine ⟨le_trans ih1 (le_of_lt h), Or.inr ⟨rfl, ?_, ?_, rfl,
        lt_of_le_of_lt ih1 h, ?_⟩, ?_⟩
      · show 1 ≤ n + 1
        omega
      · show n + 1 ≤ n + 1
        omega
      · intro j h1 h2
        have h2' : j < n + 1 := h2
        show val i j < val i (n + 1)
        exact lt_of_le_of_lt (ih3 j h1 (by omega)) h
      · intro j h1 h2
        by_cases hj : j ≤ n
        · show val i j ≤ val i (n + 1)
          exact le_trans (ih3 j h1 hj) (le_of_lt h)
        · have hj' : j = n + 1 := by omega
          rw [hj']
    · have hres : scanCell val (scanRow val i n ms) i (n + 1) = scanRow val i n ms := by
        unfold scanCell
        rw [if_neg h]
      rw [hres]
      refine ⟨ih1, ?_, ?_⟩
      · rcases ih2 with h2 | ⟨hr, hc1, hc2, hv, hs, hfirst⟩
        · exact Or.inl h2
        · exact Or.inr ⟨hr, hc1, by omega, hv, hs, hfirst⟩
      · intro j h1 h2
        by_cases hj : j ≤ n
        · exact ih3 j h1 hj
        · have hj' : j = n + 1 := by omega
          rw [hj']
          exact not_lt.mp h

/-- Behaviour of the whole scan: the final marker score is non-negative
and bounds every interior cell value; the marker either still has its
`__init__` value `(0, 0, 0)`, or points at an interior cell attaining
the (positive) score; and every interior cell strictly earlier in
row-major order has a strictly smaller value (so a later equal maximum
never moved the marker). -/
lemma scanAll_spec (val : Nat → Nat → Int) (n : Nat) :
    ∀ (m : Nat),
      0 ≤ (scanAll val m n).score ∧
      (scanAll val m n = ⟨0, 0, 0⟩ ∨
        (1 ≤ (scanAll val m n).row ∧ (scanAll val m n).row ≤ m ∧
          1 ≤ (scanAll val m n).col ∧ (scanAll val m n).col ≤ n ∧
          val (scanAll val m n).row (scanAll val m n).col = (scanAll val m n).score ∧
          0 < (scanAll val m n).score)) ∧
      (∀ i j, 1 ≤ i → i ≤ m → 1 ≤ j → j ≤ n → val i j ≤ (scanAll val m n).score) ∧
      (∀ i j, 1 ≤ i → i ≤ m → 1 ≤ j → j ≤ n →
        (i < (scanAll val m n).row ∨
          (i = (scanAll val m n).row ∧ j < (scanAll val m n).col)) →
        val i j < (scanAll val m n).score) := by
  intro m
  induction m with
  | zero =>
    refine ⟨le_refl _, Or.inl rfl, ?_, ?_⟩
    · intro i j h1 h2 h3 h4
      omega
    · intro i j h1 h2 h3 h4 h5
      omega
  | succ m ih =>
    obtain ⟨ih1, ih2, ih3, ih4⟩ := ih
    rw [scanAll_succ]
    obtain ⟨r1, r2, r3⟩ := scanRow_spec val (m + 1) n (scanAll val m n)
    refine ⟨le_trans ih1 r1, ?_, ?_, ?_⟩
    · rcases r2 with heq | ⟨hrow, hc1, hc2, hval, hgt, hfirst⟩
      · rw [heq]
        rcases ih2 with h | ⟨a1, a2, a3, a4, a5, a6⟩
        · exact Or.inl h
        · exact Or.inr ⟨a1, by omega, a3, a4, a5, a6⟩
      · refine Or.inr ⟨by omega, by omega, hc1, hc2, ?_, lt_of_le_of_lt ih1 hgt⟩
        rw [hrow]
        exact hval
    · intro i j h1 h2 h3 h4
      by_cases hi : i ≤ m
      · exact le_trans (ih3 i j h1 hi h3 h4) r1
      · have hi' : i = m + 1 := by omega
        rw [hi']
        exact r3 j h3 h4
    · intro i j h1 h2 h3 h4 h5
      rcases r2 with heq | ⟨hrow, hc1, hc2, hval, hgt, hfirst⟩
      · rw [heq] at h5 ⊢
        rcases ih2 with hinit | ⟨a1, a2, a3, a4, a5, a6⟩
        · rw [hinit] at h5
          rcases h5 with h5 | ⟨h5, h5'⟩
          · exact absurd h5 (by show ¬ i < 0; omega)
          · exact absurd h5' (by show ¬ j < 0; omega)
        · have hi : i ≤ m := by
            rcases h5 with h5 | ⟨h5, _⟩ <;> omega
          exact ih4 i j h1 hi h3 h4 h5
      · rw [hrow] at h5
        rcases h5 with h5 | ⟨h5, h5'⟩
        · have hi : i ≤ m := by omega
          exact lt_of_le_of_lt (ih3 i j h1 hi h3 h4) hgt
        · rw [h5]
          exact hfirst j h3 h5'

/-- If no interior value is positive, the marker never moves off its
`__init__` value. -/
lemma scanAll_of_nonpos (val : Nat → Nat → Int) (m n : Nat)
    (h : ∀ i j, 1 ≤ i → i ≤ m → 1 ≤ j → j ≤ n → val i j ≤ 0) :
    scanAll val m n = ⟨0, 0, 0⟩ := by
  obtain ⟨a1, a2, a3, a4⟩ := scanAll_spec val n m
  rcases a2 with h2 | ⟨b1, b2, b3, b4, b5, b6⟩
  · exact h2
  · have hle := h _ _ b1 b2 b3 b4
    rw [b5] at hle
    exact absurd b6 (by omega)

/-! ### Projections of the engine's result -/

lemma smith_waterman_score (dlt : Char → Char → Int) (gap : Int) (s1 s2 : List Char) :
    (smith_waterman dlt gap s1 s2).2.2.1 = (swMax dlt gap s1 s2).score := rfl

lemma smith_waterman_matrix (dlt : Char → Char → Int) (gap : Int) (s1 s2 : List Char) :
    (smith_waterman dlt gap s1 s2).2.2.2 = swMatrixL dlt gap s1 s2 := rfl

lemma smith_waterman_align1 (dlt : Char → Char → Int) (gap : Int) (s1 s2 : List Char) :
    (smith_waterman dlt gap s1 s2).1 =
      (tracebackAux (fun i j => entryAt (swMatrixL dlt gap s1 s2) i j) s1 s2
        (swMax dlt gap s1 s2).row (swMax dlt gap s1 s2).col).1 := rfl

lemma smith_waterman_align2 (dlt : Char → Char → Int) (gap : Int) (s1 s2 : List Char) :
    (smith_waterman dlt gap s1 s2).2.1 =
      (tracebackAux (fun i j => entryAt (swMatrixL dlt gap s1 s2) i j) s1 s2
        (swMax dlt gap s1 s2).row (swMax dlt gap s1 s2).col).2 := rfl

lemma entryAt_value_border (dlt : Char → Char → Int) (gap : Int) (s1 s2 : List Char)
    (i j : Nat) (hi : i ≤ s2.length) (hj : j ≤ s1.length) (h : i = 0 ∨ j = 0) :
    (entryAt (swMatrixL dlt gap s1 s2) i j).value = 0 := by
  rw [entryAt_swMatrixL dlt gap s1 s2 i j hi hj]
  rcases h with h | h
  · rw [h, swEntry_row0]
    rfl
  · rw [h]
    cases i with
    | zero => rw [swEntry_row0]; rfl
    | succ i => rw [swEntry_col0]; rfl

/-- C8: For every pair of input sequences and every scoring
configuration, the score returned by the engine is non-negative. -/
theorem C8_score_nonneg (dlt : Char → Char → Int) (gap : Int) (seq1 seq2 : List Char) :
    0 ≤ (smith_waterman dlt gap seq1 seq2).2.2.1 := by
  rw [smith_waterman_score]
  exact (scanAll_spec _ _ _).1

/-- C1: after the matrix-construction pass, the max-score marker's score
is the score the engine returns and equals the maximum cell value over
the whole `(m+1) × (n+1)` matrix (it is attained at the marker's
`(row, col)` and bounds every cell), and the marker's `(row, col)` is the
first cell in row-major order (first `i`, then `j`, ascending) attaining
that maximum: every strictly earlier cell has a strictly smaller value,
so a later cell with an equal maximum never overwrites the marker. -/
theorem C1_marker_first_max (dlt : Char → Char → Int) (gap : Int) (seq1 seq2 : List Char) :
    (smith_waterman dlt gap seq1 seq2).2.2.1 = (swMax dlt gap seq1 seq2).score ∧
    (swMax dlt gap seq1 seq2).row ≤ seq2.length ∧
    (swMax dlt gap seq1 seq2).col ≤ seq1.length ∧
    (entryAt (smith_waterman dlt gap seq1 seq2).2.2.2 (swMax dlt gap seq1 seq2).row
      (swMax dlt gap seq1 seq2).col).value = (swMax dlt gap seq1 seq2).score ∧
    (∀ i j, i ≤ seq2.length → j ≤ seq1.length →
      (entryAt (smith_waterman dlt gap seq1 seq2).2.2.2 i j).value ≤
        (swMax dlt gap seq1 seq2).score) ∧
    (∀ i j, i ≤ seq2.length → j ≤ seq1.length →
      (i < (swMax dlt gap seq1 seq2).row ∨
        (i = (swMax dlt gap seq1 seq2).row ∧ j < (swMax dlt gap seq1 seq2).col)) →
      (entryAt (smith_waterman dlt gap seq1 seq2).2.2.2 i j).value <
        (swMax dlt gap seq1 seq2).score) := by
  rw [smith_waterman_matrix]
  have hms : swMax dlt gap seq1 seq2 =
      scanAll (fun i j => (entryAt (swMatrixL dlt gap seq1 seq2) i j).value)
        seq2.length seq1.length := rfl
  rw [hms]
  obtain ⟨a1, a2, a3, a4⟩ :=
    scanAll_spec (fun i j => (entryAt (swMatrixL dlt gap seq1 seq2) i j).value)
      seq1.length seq2.length
  refine ⟨rfl, ?_, ?_, ?_, ?_, ?_⟩
  · rcases a2 with h | ⟨b1, b2, b3, b4, b5, b6⟩
    · rw [h]
      exact Nat.zero_le _
    · exact b2
  · rcases a2 with h | ⟨b1, b2, b3, b4, b5, b6⟩
    · rw [h]
      exact Nat.zero_le _
    · exact b4
  · rcases a2 with h | ⟨b1, b2, b3, b4, b5, b6⟩
    · rw [h]
      exact entryAt_value_border dlt gap seq1 seq2 0 0 (Nat.zero_le _) (Nat.zero_le _)
        (Or.inl rfl)
    · exact b5
  · intro i j hi hj
    rcases Nat.eq_zero_or_pos i with hi0 | hi1
    · rw [hi0, entryAt_value_border dlt gap seq1 seq2 0 j (Nat.zero_le _) hj (Or.inl rfl)]
      exact a1
    · rcases Nat.eq_zero_or_pos j with hj0 | hj1
      · rw [hj0, entryAt_value_border dlt gap seq1 seq2 i 0 hi (Nat.zero_le _) (Or.inr rfl)]
        exact a1
      · exact a3 i j hi1 hi hj1 hj
  · intro i j hi hj hlex
    rcases a2 with h | ⟨b1, b2, b3, b4, b5, b6⟩
    · rw [h] at hlex
      rcases hlex with h5 | ⟨h5, h5'⟩
      · exact absurd h5 (by show ¬ i < 0; omega)
      · exact absurd h5' (by show ¬ j < 0; omega)
    · rcases Nat.eq_zero_or_pos i with hi0 | hi1
      · rw [hi0, entryAt_value_border dlt gap seq1 seq2 0 j (Nat.zero_le _) hj (Or.inl rfl)]
        exact b6
      · rcases Nat.eq_zero_or_pos j with hj0 | hj1
        · rw [hj0,
            entryAt_value_border dlt gap seq1 seq2 i 0 hi (Nat.zero_le _) (Or.inr rfl)]
          exact b6
        · exact a4 i j hi1 hi hj1 hj hlex

/-- Witness for `C1_marker_first_max` at a concrete input. -/
theorem C1_marker_first_max_witness :
    (entryAt (smith_waterman (delta_nt 1 0) 0 (['A'] : List Char)
      (['A'] : List Char)).2.2.2 0 0).value ≤
      (swMax (delta_nt 1 0) 0 (['A'] : List Char) (['A'] : List Char)).score :=
  (C1_marker_first_max (delta_nt 1 0) 0 ['A'] ['A']).2.2.2.2.1 0 0
    (by decide) (by decide)

/-! ### Swapping the two sequences transposes the matrix -/

lemma value_cell (c : Cell) : (Entry.cell c).value = c.m := rfl

lemma value_int (v : Int) : (Entry.int v).value = v := rfl

lemma max4_of_neg_nonpos (a b c : Int) (ha : a < 0) (hb : b ≤ 0) (hc : c ≤ 0) :
    max (max (max a b) c) 0 = 0 := by
  simp only [max_def]
  split_ifs <;> omega

/-- Restatement of `scanAll_spec` for the engine's marker. -/
lemma swMax_spec (dlt : Char → Char → Int) (gap : Int) (s1 s2 : List Char) :
    0 ≤ (swMax dlt gap s1 s2).score ∧
    (swMax dlt gap s1 s2 = ⟨0, 0, 0⟩ ∨
      (1 ≤ (swMax dlt gap s1 s2).row ∧ (swMax dlt gap s1 s2).row ≤ s2.length ∧
        1 ≤ (swMax dlt gap s1 s2).col ∧ (swMax dlt gap s1 s2).col ≤ s1.length ∧
        (entryAt (swMatrixL dlt gap s1 s2) (swMax dlt gap s1 s2).row
          (swMax dlt gap s1 s2).col).value = (swMax dlt gap s1 s2).score ∧
        0 < (swMax dlt gap s1 s2).score)) ∧
    (∀ i j, 1 ≤ i → i ≤ s2.length → 1 ≤ j → j ≤ s1.length →
      (entryAt (swMatrixL dlt gap s1 s2) i j).value ≤ (swMax dlt gap s1 s2).score) ∧
    (∀ i j, 1 ≤ i → i ≤ s2.length → 1 ≤ j → j ≤ s1.length →
      (i < (swMax dlt gap s1 s2).row ∨
        (i = (swMax dlt gap s1 s2).row ∧ j < (swMax dlt gap s1 s2).col)) →
      (entryAt (swMatrixL dlt gap s1 s2) i j).value < (swMax dlt gap s1 s2).score) :=
  scanAll_spec (fun i j => (entryAt (swMatrixL dlt gap s1 s2) i j).value)
    s1.length s2.length

/-- With a symmetric scoring provider, cell `(i, j)` of the run on
`(s1, s2)` and cell `(j, i)` of the run on `(s2, s1)` have the same
maximum. -/
lemma swEntry_value_symm (dlt : Char → Char → Int) (gap : Int) (s1 s2 : List Char)
    (hsym : ∀ a b, dlt a b = dlt b a) :
    ∀ N i j, i + j ≤ N →
      (swEntry dlt gap s1 s2 i j).value = (swEntry dlt gap s2 s1 j i).value := by
  intro N
  induction N with
  | zero =>
    intro i j h
    have hi : i = 0 := by omega
    have hj : j = 0 := by omega
    rw [hi, hj, swEntry_row0, swEntry_row0]
  | succ N ih =>
    intro i j h
    match i, j with
    | 0, 0 => rw [swEntry_row0, swEntry_row0]
    | 0, j + 1 => rw [swEntry_row0, swEntry_col0]
    | i + 1, 0 => rw [swEntry_col0, swEntry_row0]
    | i + 1, j + 1 =>
      rw [swEntry_succ, swEntry_succ, value_cell, value_cell, mkCell_m, mkCell_m]
      rw [ih i j (by omega), ih i (j + 1) (by omega), ih (i + 1) j (by omega)]
      rw [hsym (s1.getD j ' ') (s2.getD i ' ')]
      exact max4_swap_mid_right _ _ _

lemma swMax_score_symm (dlt : Char → Char → Int) (gap : Int) (s1 s2 : List Char)
    (hsym : ∀ a b, dlt a b = dlt b a) :
    (swMax dlt gap s1 s2).score = (swMax dlt gap s2 s1).score := by
  have key : ∀ (x y : List Char), (swMax dlt gap x y).score ≤ (swMax dlt gap y x).score := by
    intro x y
    obtain ⟨a1, a2, a3, a4⟩ := swMax_spec dlt gap x y
    obtain ⟨c1, c2, c3, c4⟩ := swMax_spec dlt gap y x
    rcases a2 with h | ⟨b1, b2, b3, b4, b5, b6⟩
    · rw [h]
      exact c1
    · have hv : (entryAt (swMatrixL dlt gap x y) (swMax dlt gap x y).row
          (swMax dlt gap x y).col).value =
          (entryAt (swMatrixL dlt gap y x) (swMax dlt gap x y).col
            (swMax dlt gap x y).row).value := by
        rw [entryAt_swMatrixL dlt gap x y _ _ b2 b4,
          entryAt_swMatrixL dlt gap y x _ _ b4 b2]
        exact swEntry_value_symm dlt gap x y hsym
          ((swMax dlt gap x y).row + (swMax dlt gap x y).col) _ _ (le_refl _)
      rw [← b5, hv]
      exact c3 _ _ b3 b4 b1 b2
  exact le_antisymm (key s1 s2) (key s2 s1)

/-- C7: for every pair of input sequences under a fixed symmetric
scoring provider, the score returned on `(seq1, seq2)` equals the score
returned on `(seq2, seq1)` (the two matrices are transposes of each
other, so the global maximum is the same). -/
theorem C7_swap_score_eq (dlt : Char → Char → Int) (gap : Int)
    (hsym : ∀ a b, dlt a b = dlt b a) (seq1 seq2 : List Char) :
    (smith_waterman dlt gap seq1 seq2).2.2.1 =
      (smith_waterman dlt gap seq2 seq1).2.2.1 := by
  rw [smith_waterman_score, smith_waterman_score]
  exact swMax_score_symm dlt gap seq1 seq2 hsym

/-- The nucleotide-mode scoring rule is symmetric in its two symbols. -/
lemma delta_nt_symm (mtch mism : Int) :
    ∀ a b, delta_nt mtch mism a b = delta_nt mtch mism b a := by
  intro a b
  unfold delta_nt
  by_cases h : a.toUpper = b.toUpper
  · rw [if_pos h, if_pos h.symm]
  · rw [if_neg h, if_neg (fun hh => h hh.symm)]

/-- Witness for `C7_swap_score_eq` at a concrete input. -/
theorem C7_swap_score_eq_witness :
    (smith_waterman (delta_nt 1 0) 0 (['A'] : List Char) (['B'] : List Char)).2.2.1 =
      (smith_waterman (delta_nt 1 0) 0 (['B'] : List Char) (['A'] : List Char)).2.2.1 :=
  C7_swap_score_eq (delta_nt 1 0) 0 (delta_nt_symm 1 0) ['A'] ['B']

/-! ### All scores negative: the matrix stays at the zero floor -/

lemma swEntry_value_zero_of_neg (dlt : Char → Char → Int) (gap : Int)
    (s1 s2 : List Char) (hg : gap ≤ 0)
    (hneg : ∀ a ∈ s1, ∀ b ∈ s2, dlt a b < 0) :
    ∀ N i j, i + j ≤ N → i ≤ s2.length → j ≤ s1.length →
      (swEntry dlt gap s1 s2 i j).value = 0 := by
  intro N
  induction N with
  | zero =>
    intro i j h hi hj
    have hi0 : i = 0 := by omega
    rw [hi0, swEntry_row0, value_int]
  | succ N ih =>
    intro i j h hi hj
    match i, j with
    | 0, j => rw [swEntry_row0, value_int]
    | i + 1, 0 => rw [swEntry_col0, value_int]
    | i + 1, j + 1 =>
      rw [swEntry_succ, value_cell, mkCell_m]
      rw [ih i j (by omega) (by omega) (by omega),
        ih i (j + 1) (by omega) (by omega) hj,
        ih (i + 1) j (by omega) hi (by omega)]
      have hj' : j < s1.length := by omega
      have hi' : i < s2.length := by omega
      have hsc : dlt (s1.getD j ' ') (s2.getD i ' ') < 0 := by
        rw [List.getD_eq_getElem _ _ hj', List.getD_eq_getElem _ _ hi']
        exact hneg _ (List.getElem_mem hj') _ (List.getElem_mem hi')
      simp only [zero_add]
      exact max4_of_neg_nonpos _ _ _ hsc hg hg

/-- C6: if every substitution score between symbols of the two input
sequences is strictly negative and the gap penalty is ≤ 0, the engine
returns empty alignment strings and score 0. -/
theorem C6_no_common_symbols (dlt : Char → Char → Int) (gap : Int)
    (seq1 seq2 : List Char) (hg : gap ≤ 0)
    (hneg : ∀ a ∈ seq1, ∀ b ∈ seq2, dlt a b < 0) :
    (smith_waterman dlt gap seq1 seq2).1 = [] ∧
    (smith_waterman dlt gap seq1 seq2).2.1 = [] ∧
    (smith_waterman dlt gap seq1 seq2).2.2.1 = 0 := by
  have hmax : swMax dlt gap seq1 seq2 = ⟨0, 0, 0⟩ := by
    apply scanAll_of_nonpos
    intro i j h1 h2 h3 h4
    rw [entryAt_swMatrixL dlt gap seq1 seq2 i j h2 h4,
      swEntry_value_zero_of_neg dlt gap seq1 seq2 hg hneg (i + j) i j (le_refl _) h2 h4]
  refine ⟨?_, ?_, ?_⟩
  · rw [smith_waterman_align1, hmax]
    rfl
  · rw [smith_waterman_align2, hmax]
    rfl
  · rw [smith_waterman_score, hmax]

/-- Witness for `C6_no_common_symbols` at a concrete input. -/
theorem C6_no_common_symbols_witness :
    (smith_waterman (delta_nt 1 (-1)) 0 (['A'] : List Char) (['B'] : List Char)).1 = [] ∧
    (smith_waterman (delta_nt 1 (-1)) 0 (['A'] : List Char) (['B'] : List Char)).2.1 = [] ∧
    (smith_waterman (delta_nt 1 (-1)) 0 (['A'] : List Char)
      (['B'] : List Char)).2.2.1 = 0 :=
  C6_no_common_symbols (delta_nt 1 (-1)) 0 ['A'] ['B'] (by decide) (by decide)

/-! ### Traceback -/

lemma tracebackAux_row0 (cell : Nat → Nat → Entry) (s1 s2 : List Char) (j : Nat) :
    tracebackAux cell s1 s2 0 j = ([], []) := rfl

lemma tracebackAux_col0 (cell : Nat → Nat → Entry) (s1 s2 : List Char) (i : Nat) :
    tracebackAux cell s1 s2 (i + 1) 0 = ([], []) := rfl

lemma tracebackAux_int (cell : Nat → Nat → Entry) (s1 s2 : List Char) (i j : Nat)
    (v : Int) (h : cell (i + 1) (j + 1) = Entry.int v) :
    tracebackAux cell s1 s2 (i + 1) (j + 1) = ([], []) := by
  show tracebackRow cell s1 s2 (tracebackAux cell s1 s2 i) i (j + 1) = _
  unfold tracebackRow
  rw [h]

lemma tracebackAux_cell (cell : Nat → Nat → Entry) (s1 s2 : List Char) (i j : Nat)
    (c : Cell) (h : cell (i + 1) (j + 1) = Entry.cell c) :
    tracebackAux cell s1 s2 (i + 1) (j + 1) =
      if c.m = 0 then ([], [])
      else if Direction.diagonal ∈ c.a then
        ((tracebackAux cell s1 s2 i j).1 ++ [s1.getD j ' '],
          (tracebackAux cell s1 s2 i j).2 ++ [s2.getD i ' '])
      else if Direction.left ∈ c.a then
        ((tracebackAux cell s1 s2 (i + 1) j).1 ++ [s1.getD j ' '],
          (tracebackAux cell s1 s2 (i + 1) j).2 ++ ['-'])
      else if Direction.up ∈ c.a then
        ((tracebackAux cell s1 s2 i (j + 1)).1 ++ ['-'],
          (tracebackAux cell s1 s2 i (j + 1)).2 ++ [s2.getD i ' '])
      else ([], []) := by
  show tracebackRow cell s1 s2 (tracebackAux cell s1 s2 i) i (j + 1) = _
  unfold tracebackRow
  rw [h]
  rfl

lemma filter_gap_keep (a : Char) (h : a ≠ '-') :
    List.filter (fun c => c != '-') [a] = [a] := by
  have hb : (a != '-') = true := by rwa [bne_iff_ne]
  simp [List.filter, hb]

lemma filter_gap_drop : List.filter (fun c => c != '-') (['-'] : List Char) = [] := by
  decide

/-- Both traceback outputs have the same length; aligned pairs are never
two gap symbols (for gap-free inputs), and every non-gap character
belongs to its input sequence.  Generic in the matrix `cell` function. -/
lemma traceback_pairs (cell : Nat → Nat → Entry) (s1 s2 : List Char)
    (h1 : '-' ∉ s1) (h2 : '-' ∉ s2) :
    ∀ N i j, i + j ≤ N → i ≤ s2.length → j ≤ s1.length →
      (tracebackAux cell s1 s2 i j).1.length = (tracebackAux cell s1 s2 i j).2.length ∧
      ∀ q ∈ (tracebackAux cell s1 s2 i j).1.zip (tracebackAux cell s1 s2 i j).2,
        ¬(q.1 = '-' ∧ q.2 = '-') ∧ (q.1 ≠ '-' → q.1 ∈ s1) ∧ (q.2 ≠ '-' → q.2 ∈ s2) := by
  intro N
  induction N with
  | zero =>
    intro i j h hi hj
    have hi0 : i = 0 := by omega
    rw [hi0, tracebackAux_row0]
    exact ⟨rfl, by simp⟩
  | succ N ih =>
    intro i j h hi hj
    match i, j with
    | 0, j => rw [tracebackAux_row0]; exact ⟨rfl, by simp⟩
    | i + 1, 0 => rw [tracebackAux_col0]; exact ⟨rfl, by simp⟩
    | i + 1, j + 1 =>
      have hj' : j < s1.length := by omega
      have hi' : i < s2.length := by omega
      have ha : s1.getD j ' ' ∈ s1 := by
        rw [List.getD_eq_getElem _ _ hj']
        exact List.getElem_mem hj'
      have hb : s2.getD i ' ' ∈ s2 := by
        rw [List.getD_eq_getElem _ _ hi']
        exact List.getElem_mem hi'
      have hane : s1.getD j ' ' ≠ '-' := fun he => h1 (he ▸ ha)
      have hbne : s2.getD i ' ' ≠ '-' := fun he => h2 (he ▸ hb)
      rcases hcell : cell (i + 1) (j + 1) with v | c
      · rw [tracebackAux_int cell s1 s2 i j v hcell]
        exact ⟨rfl, by simp⟩
      · rw [tracebackAux_cell cell s1 s2 i j c hcell]
        split_ifs with hm hdiag hleft hup
        · exact ⟨rfl, by simp⟩
        · obtain ⟨ihlen, ihmem⟩ := ih i j (by omega) (by omega) (by omega)
          constructor
          · simp [ihlen]
          · intro q hq
            rw [List.zip_append ihlen] at hq
            rcases List.mem_append.mp hq with hq | hq
            · exact ihmem q hq
            · have hq' : q = (s1.getD j ' ', s2.getD i ' ') := by simpa using hq
              rw [hq']
              exact ⟨fun hc => hane hc.1, fun _ => ha, fun _ => hb⟩
        · obtain ⟨ihlen, ihmem⟩ := ih (i + 1) j (by omega) hi (by omega)
          constructor
          · simp [ihlen]
          · intro q hq
            rw [List.zip_append ihlen] at hq
            rcases List.mem_append.mp hq with hq | hq
            · exact ihmem q hq
            · have hq' : q = (s1.getD j ' ', '-') := by simpa using hq
              rw [hq']
              exact ⟨fun hc => hane hc.1, fun _ => ha, fun hc => absurd rfl hc⟩
        · obtain ⟨ihlen, ihmem⟩ := ih i (j + 1) (by omega) (by omega) hj
          constructor
          · simp [ihlen]
          · intro q hq
            rw [List.zip_append ihlen] at hq
            rcases List.mem_append.mp hq with hq | hq
            · exact ihmem q hq
            · have hq' : q = ('-', s2.getD i ' ') := by simpa using hq
              rw [hq']
              exact ⟨fun hc => hbne hc.2, fun hc => absurd rfl hc, fun _ => hb⟩
        · exact ⟨rfl, by simp⟩

lemma take_slice_succ (l : List Char) (j' j : Nat) (hj' : j' ≤ j) (hj : j < l.length) :
    (l.drop j').take (j + 1 - j') = (l.drop j').take (j - j') ++ [l.getD j ' '] := by
  have h1 : j + 1 - j' = (j - j') + 1 := by omega
  rw [h1, List.take_succ]
  congr 1
  rw [List.getElem?_drop]
  have h2 : j' + (j - j') = j := by omega
  rw [h2, List.getElem?_eq_getElem hj, List.getD_eq_getElem _ _ hj]
  rfl

/-- Each traceback output, with the gap symbols removed, is a contiguous
slice of its input sequence (for gap-free inputs).  Generic in the
matrix `cell` function. -/
lemma traceback_slices (cell : Nat → Nat → Entry) (s1 s2 : List Char)
    (h1 : '-' ∉ s1) (h2 : '-' ∉ s2) :
    ∀ N i j, i + j ≤ N → i ≤ s2.length → j ≤ s1.length →
      ∃ i' j', i' ≤ i ∧ j' ≤ j ∧
        (tracebackAux cell s1 s2 i j).1.filter (fun c => c != '-') =
          (s1.drop j').take (j - j') ∧
        (tracebackAux cell s1 s2 i j).2.filter (fun c => c != '-') =
          (s2.drop i').take (i - i') := by
  intro N
  induction N with
  | zero =>
    intro i j h hi hj
    have hi0 : i = 0 := by omega
    have hj0 : j = 0 := by omega
    rw [hi0, hj0, tracebackAux_row0]
    exact ⟨0, 0, le_refl _, le_refl _, by simp, by simp⟩
  | succ N ih =>
    intro i j h hi hj
    match i, j with
    | 0, j =>
      rw [tracebackAux_row0]
      exact ⟨0, j, le_refl _, le_refl _, by simp, by simp⟩
    | i + 1, 0 =>
      rw [tracebackAux_col0]
      exact ⟨i + 1, 0, le_refl _, le_refl _, by simp, by simp⟩
    | i + 1, j + 1 =>
      have hj' : j < s1.length := by omega
      have hi' : i < s2.length := by omega
      have ha : s1.getD j ' ' ∈ s1 := by
        rw [List.getD_eq_getElem _ _ hj']
        exact List.getElem_mem hj'
      have hb : s2.getD i ' ' ∈ s2 := by
        rw [List.getD_eq_getElem _ _ hi']
        exact List.getElem_mem hi'
      have hane : s1.getD j ' ' ≠ '-' := fun he => h1 (he ▸ ha)
      have hbne : s2.getD i ' ' ≠ '-' := fun he => h2 (he ▸ hb)
      rcases hcell : cell (i + 1) (j + 1) with v | c
      · rw [tracebackAux_int cell s1 s2 i j v hcell]
        exact ⟨i + 1, j + 1, le_refl _, le_refl _, by simp, by simp⟩
      · rw [tracebackAux_cell cell s1 s2 i j c hcell]
        split_ifs with hm hdiag hleft hup
        · exact ⟨i + 1, j + 1, le_refl _, le_refl _, by simp, by simp⟩
        · obtain ⟨i', j', hi'', hj'', hf1, hf2⟩ := ih i j (by omega) (by omega) (by omega)
          refine ⟨i', j', by omega, by omega, ?_, ?_⟩
          · rw [List.filter_append, hf1, filter_gap_keep _ hane]
            exact (take_slice_succ s1 j' j hj'' hj').symm
          · rw [List.filter_append, hf2, filter_gap_keep _ hbne]
            exact (take_slice_succ s2 i' i hi'' hi').symm
        · obtain ⟨i', j', hi'', hj'', hf1, hf2⟩ := ih (i + 1) j (by omega) hi (by omega)
          refine ⟨i', j', hi'', by omega, ?_, ?_⟩
          · rw [List.filter_append, hf1, filter_gap_keep _ hane]
            exact (take_slice_succ s1 j' j hj'' hj').symm
          · rw [List.filter_append, hf2, filter_gap_drop, List.append_nil]
        · obtain ⟨i', j', hi'', hj'', hf1, hf2⟩ := ih i (j + 1) (by omega) (by omega) hj
          refine ⟨i', j', by omega, hj'', ?_, ?_⟩
          · rw [List.filter_append, hf1, filter_gap_drop, List.append_nil]
          · rw [List.filter_append, hf2, filter_gap_keep _ hbne]
            exact (take_slice_succ s2 i' i hi'' hi').symm
        · exact ⟨i + 1, j + 1, le_refl _, le_refl _, by simp, by simp⟩

lemma swMax_row_le (dlt : Char → Char → Int) (gap : Int) (s1 s2 : List Char) :
    (swMax dlt gap s1 s2).row ≤ s2.length := by
  rcases (swMax_spec dlt gap s1 s2).2.1 with h | ⟨_, b2, _, _, _, _⟩
  · rw [h]
    exact Nat.zero_le _
  · exact b2

lemma swMax_col_le (dlt : Char → Char → Int) (gap : Int) (s1 s2 : List Char) :
    (swMax dlt gap s1 s2).col ≤ s1.length := by
  rcases (swMax_spec dlt gap s1 s2).2.1 with h | ⟨_, _, _, b4, _, _⟩
  · rw [h]
    exact Nat.zero_le _
  · exact b4

/-- C5 (amended): for inputs that do not contain the gap symbol `'-'`,
the two alignment strings returned by traceback have equal length, no
index holds `'-'` in both simultaneously, and every non-gap character
comes from the corresponding input sequence. -/
theorem C5_alignment_pairing (dlt : Char → Char → Int) (gap : Int)
    (seq1 seq2 : List Char) (h1 : '-' ∉ seq1) (h2 : '-' ∉ seq2) :
    (smith_waterman dlt gap seq1 seq2).1.length =
      (smith_waterman dlt gap seq1 seq2).2.1.length ∧
    ∀ q ∈ (smith_waterman dlt gap seq1 seq2).1.zip
        (smith_waterman dlt gap seq1 seq2).2.1,
      ¬(q.1 = '-' ∧ q.2 = '-') ∧ (q.1 ≠ '-' → q.1 ∈ seq1) ∧
        (q.2 ≠ '-' → q.2 ∈ seq2) := by
  rw [smith_waterman_align1, smith_waterman_align2]
  exact traceback_pairs _ seq1 seq2 h1 h2
    ((swMax dlt gap seq1 seq2).row + (swMax dlt gap seq1 seq2).col) _ _
    (le_refl _) (swMax_row_le dlt gap seq1 seq2) (swMax_col_le dlt gap seq1 seq2)

/-- Witness for `C5_alignment_pairing` at a concrete input. -/
theorem C5_alignment_pairing_witness :
    (smith_waterman (delta_nt 1 0) 0 (['A'] : List Char) (['A'] : List Char)).1.length =
      (smith_waterman (delta_nt 1 0) 0 (['A'] : List Char) (['A'] : List Char)).2.1.length ∧
    ∀ q ∈ (smith_waterman (delta_nt 1 0) 0 (['A'] : List Char) (['A'] : List Char)).1.zip
        (smith_waterman (delta_nt 1 0) 0 (['A'] : List Char) (['A'] : List Char)).2.1,
      ¬(q.1 = '-' ∧ q.2 = '-') ∧ (q.1 ≠ '-' → q.1 ∈ (['A'] : List Char)) ∧
        (q.2 ≠ '-' → q.2 ∈ (['A'] : List Char)) :=
  C5_alignment_pairing (delta_nt 1 0) 0 ['A'] ['A'] (by decide) (by decide)

/-- Counterexample to C5 as stated (quantified over *all* input
sequences): when an input itself contains the gap symbol `'-'`, a
diagonal step can emit `'-'` in both output strings at the same index. -/
theorem C5_counterexample :
    ∃ q ∈ (smith_waterman (delta_nt 1 0) 0 (['-'] : List Char)
        (['-'] : List Char)).1.zip
      (smith_waterman (delta_nt 1 0) 0 (['-'] : List Char) (['-'] : List Char)).2.1,
      q.1 = '-' ∧ q.2 = '-' := by
  decide

/-- C4 (amended): for inputs that do not contain the gap symbol `'-'`,
each alignment string returned by the engine, after removing every `'-'`,
is an exact contiguous substring of the corresponding input sequence. -/
theorem C4_gap_removed_substrings (dlt : Char → Char → Int) (gap : Int)
    (seq1 seq2 : List Char) (h1 : '-' ∉ seq1) (h2 : '-' ∉ seq2) :
    (∃ k l, (smith_waterman dlt gap seq1 seq2).1.filter (fun c => c != '-') =
      (seq1.drop k).take l) ∧
    (∃ k l, (smith_waterman dlt gap seq1 seq2).2.1.filter (fun c => c != '-') =
      (seq2.drop k).take l) := by
  rw [smith_waterman_align1, smith_waterman_align2]
  obtain ⟨i', j', hi', hj', hf1, hf2⟩ := traceback_slices _ seq1 seq2 h1 h2
    ((swMax dlt gap seq1 seq2).row + (swMax dlt gap seq1 seq2).col) _ _
    (le_refl _) (swMax_row_le dlt gap seq1 seq2) (swMax_col_le dlt gap seq1 seq2)
  exact ⟨⟨j', (swMax dlt gap seq1 seq2).col - j', hf1⟩,
    ⟨i', (swMax dlt gap seq1 seq2).row - i', hf2⟩⟩

/-- Witness for `C4_gap_removed_substrings` at a concrete input. -/
theorem C4_gap_removed_substrings_witness :
    (∃ k l, (smith_waterman (delta_nt 1 0) 0 (['A'] : List Char)
      (['A'] : List Char)).1.filter (fun c => c != '-') =
      ((['A'] : List Char).drop k).take l) ∧
    (∃ k l, (smith_waterman (delta_nt 1 0) 0 (['A'] : List Char)
      (['A'] : List Char)).2.1.filter (fun c => c != '-') =
      ((['A'] : List Char).drop k).take l) :=
  C4_gap_removed_substrings (delta_nt 1 0) 0 ['A'] ['A'] (by decide) (by decide)

/-- Counterexample to C4 as stated (quantified over *all* input
sequences): when an input contains `'-'` itself, a consumed input `'-'`
is stripped with the gaps, and what remains is no contiguous substring.
Here the optimal path consumes all of `"A-A"` diagonally (mismatch is
scored +1), the output string is `"A-A"`, and removing gaps leaves
`"AA"`, which is not a contiguous substring of `"A-A"`. -/
theorem C4_counterexample :
    ¬ ∃ k l, (smith_waterman (delta_nt 2 1) (-2) (['A', '-', 'A'] : List Char)
      (['A', 'B', 'A'] : List Char)).1.filter (fun c => c != '-') =
      ((['A', '-', 'A'] : List Char).drop k).take l := by
  have hf : (smith_waterman (delta_nt 2 1) (-2) (['A', '-', 'A'] : List Char)
      (['A', 'B', 'A'] : List Char)).1.filter (fun c => c != '-') =
      (['A', 'A'] : List Char) := by decide
  rw [hf]
  rintro ⟨k, l, hkl⟩
  rcases k with _ | _ | _ | k <;> rcases l with _ | _ | _ | l <;>
    simp only [List.drop_succ_cons, List.drop_nil, List.drop_zero,
      List.take_succ_cons, List.take_nil, List.take_zero] at hkl <;>
    exact absurd hkl (by decide)

/-! ### The concrete nucleotide scenario -/

set_option maxRecDepth 40000 in
/-- Counterexample to C2 as stated: with match 2, mismatch −1 and gap −2
on `seq1 = "ACACACTA"`, `seq2 = "AGCACACA"` the engine does not return
score 12 with alignments `"A-CACACTA"` / `"AGCACAC-A"` (that alignment
scores 7·2 − 2·2 = 10, and the optimal score with these parameters is
10; the textbook score 12 belongs to gap penalty −1). -/
theorem C2_counterexample :
    ¬ ((smith_waterman (delta_nt 2 (-1)) (-2) "ACACACTA".toList
        "AGCACACA".toList).2.2.1 = 12 ∧
      (smith_waterman (delta_nt 2 (-1)) (-2) "ACACACTA".toList
        "AGCACACA".toList).1 = "A-CACACTA".toList ∧
      (smith_waterman (delta_nt 2 (-1)) (-2) "ACACACTA".toList
        "AGCACACA".toList).2.1 = "AGCACAC-A".toList) := by
  intro h
  exact absurd h.1 (by decide)

set_option maxRecDepth 40000 in
/-- C2 (amended): with match 2, mismatch −1 and gap −2 on
`seq1 = "ACACACTA"`, `seq2 = "AGCACACA"` the engine returns score 10 and
the alignment strings `"CACAC"` / `"CACAC"` (the first row-major maximum
10 sits at matrix cell (7, 6) and the traceback is all-diagonal until it
hits a zero cell). -/
theorem C2_nucleotide_scenario :
    (smith_waterman (delta_nt 2 (-1)) (-2) "ACACACTA".toList
      "AGCACACA".toList).2.2.1 = 10 ∧
    (smith_waterman (delta_nt 2 (-1)) (-2) "ACACACTA".toList
      "AGCACACA".toList).1 = "CACAC".toList ∧
    (smith_waterman (delta_nt 2 (-1)) (-2) "ACACACTA".toList
      "AGCACACA".toList).2.1 = "CACAC".toList := by
  refine ⟨by decide, by decide, by decide⟩

/-! ### Direction-set invariants and the rendered direction code -/

lemma entryAt_interior (dlt : Char → Char → Int) (gap : Int) (s1 s2 : List Char)
    (i j : Nat) (hi : i < s2.length) (hj : j < s1.length) :
    entryAt (swMatrixL dlt gap s1 s2) (i + 1) (j + 1) =
      Entry.cell (mkCell (swEntry dlt gap s1 s2 i j).value
        (swEntry dlt gap s1 s2 i (j + 1)).value
        (swEntry dlt gap s1 s2 (i + 1) j).value
        (dlt (s1.getD j ' ') (s2.getD i ' ')) gap) := by
  rw [entryAt_swMatrixL dlt gap s1 s2 (i + 1) (j + 1) (by omega) (by omega), swEntry_succ]

/-- The direction-set invariants of any computed cell. -/
lemma mkCell_directions (vd vu vl sc gap : Int) :
    (mkCell vd vu vl sc gap).a ≠ [] ∧
    (Direction.zero ∈ (mkCell vd vu vl sc gap).a ↔
      (mkCell vd vu vl sc gap).d < 0 ∧ (mkCell vd vu vl sc gap).l < 0 ∧
        (mkCell vd vu vl sc gap).u < 0) ∧
    (Direction.zero ∈ (mkCell vd vu vl sc gap).a →
      Direction.diagonal ∉ (mkCell vd vu vl sc gap).a ∧
        Direction.left ∉ (mkCell vd vu vl sc gap).a ∧
        Direction.up ∉ (mkCell vd vu vl sc gap).a) ∧
    ((mkCell vd vu vl sc gap).m ≠ 0 →
      Direction.diagonal ∈ (mkCell vd vu vl sc gap).a ∨
        Direction.left ∈ (mkCell vd vu vl sc gap).a ∨
        Direction.up ∈ (mkCell vd vu vl sc gap).a) := by
  refine ⟨mkCell_a_ne_nil _ _ _ _ _, ?_, ?_, ?_⟩
  · rw [mkCell_mem_zero, mkCell_d, mkCell_l, mkCell_u]
  · intro hz
    rw [mkCell_mem_zero] at hz
    obtain ⟨z1, z2, z3⟩ := hz
    have hm0 : (mkCell vd vu vl sc gap).m = 0 := by
      rw [mkCell_m]
      exact max4_of_all_neg _ _ _ z1 z2 z3
    refine ⟨?_, ?_, ?_⟩
    · rw [mkCell_mem_diagonal, hm0]
      omega
    · rw [mkCell_mem_left, hm0]
      omega
    · rw [mkCell_mem_up, hm0]
      omega
  · intro hm
    rcases max4_cases (vd + sc) (vl + gap) (vu + gap) with h | h | h | h
    · left
      rw [mkCell_mem_diagonal, mkCell_m]
      exact h
    · right
      left
      rw [mkCell_mem_left, mkCell_m]
      exact h
    · right
      right
      rw [mkCell_mem_up, mkCell_m]
      exact h
    · exact absurd (by rw [mkCell_m]; exact h) hm

/-- C10: every interior cell of a constructed matrix has a non-empty
direction set; the zero marker is present iff all three candidate
scores (diagonal, left, up) are strictly negative, in which case no
directional marker is present; and any cell with non-zero maximum
carries at least one directional marker. -/
theorem C10_direction_invariants (dlt : Char → Char → Int) (gap : Int)
    (seq1 seq2 : List Char) (i j : Nat) (hi : i < seq2.length) (hj : j < seq1.length)
    (c : Cell) (hc : entryAt (swMatrixL dlt gap seq1 seq2) (i + 1) (j + 1) = Entry.cell c) :
    c.a ≠ [] ∧
    (Direction.zero ∈ c.a ↔ c.d < 0 ∧ c.l < 0 ∧ c.u < 0) ∧
    (Direction.zero ∈ c.a →
      Direction.diagonal ∉ c.a ∧ Direction.left ∉ c.a ∧ Direction.up ∉ c.a) ∧
    (c.m ≠ 0 →
      Direction.diagonal ∈ c.a ∨ Direction.left ∈ c.a ∨ Direction.up ∈ c.a) := by
  rw [entryAt_interior dlt gap seq1 seq2 i j hi hj] at hc
  injection hc with hc
  rw [← hc]
  exact mkCell_directions _ _ _ _ _

/-- Witness for `C10_direction_invariants` at a concrete input. -/
theorem C10_direction_invariants_witness : (mkCell 0 0 0 1 0).a ≠ [] :=
  (C10_direction_invariants (delta_nt 1 0) 0 ['A'] ['A'] 0 0 (by decide) (by decide)
    (mkCell 0 0 0 1 0) (by decide)).1

/-- On any computed cell, the rendering of `matrix_format` (which checks
the zero marker first) agrees with the spec's display priority
`d > l > u > z`: the two differ only on a cell carrying both the zero
marker and a directional marker, and no computed cell does. -/
lemma formatCode_mkCell (vd vu vl sc gap : Int) :
    formatCode (mkCell vd vu vl sc gap) =
      some (specRenderCode (mkCell vd vu vl sc gap)) := by
  unfold formatCode specRenderCode
  by_cases hz : Direction.zero ∈ (mkCell vd vu vl sc gap).a
  · obtain ⟨hd, hl, hu⟩ := (mkCell_directions vd vu vl sc gap).2.2.1 hz
    rw [if_pos hz, if_neg hd, if_neg hl, if_neg hu]
  · rw [if_neg hz]
    by_cases hd : Direction.diagonal ∈ (mkCell vd vu vl sc gap).a
    · rw [if_pos hd, if_pos hd]
    · rw [if_neg hd, if_neg hd]
      by_cases hl : Direction.left ∈ (mkCell vd vu vl sc gap).a
      · rw [if_pos hl, if_pos hl]
      · rw [if_neg hl, if_neg hl]
        by_cases hu : Direction.up ∈ (mkCell vd vu vl sc gap).a
        · rw [if_pos hu, if_pos hu]
        · exfalso
          apply (mkCell_directions vd vu vl sc gap).1
          rw [mkCell_a, dirList_eq_nil]
          exact ⟨fun h => hz ((mkCell_mem_zero _ _ _ _ _).mpr h),
            fun h => hd ((mkCell_mem_diagonal _ _ _ _ _).mpr h),
            fun h => hl ((mkCell_mem_left _ _ _ _ _).mpr h),
            fun h => hu ((mkCell_mem_up _ _ _ _ _).mpr h)⟩

/-- C9: for every interior cell of a constructed matrix, the single
direction code rendered in the textual matrix export is chosen from the
cell's direction set by the priority `d` (diagonal) > `l` (left) >
`u` (up) > `z` (zero). -/
theorem C9_render_priority (dlt : Char → Char → Int) (gap : Int)
    (seq1 seq2 : List Char) (i j : Nat) (hi : i < seq2.length) (hj : j < seq1.length)
    (c : Cell) (hc : entryAt (swMatrixL dlt gap seq1 seq2) (i + 1) (j + 1) = Entry.cell c) :
    formatCode c = some (specRenderCode c) := by
  rw [entryAt_interior dlt gap seq1 seq2 i j hi hj] at hc
  injection hc with hc
  rw [← hc]
  exact formatCode_mkCell _ _ _ _ _

/-- Witness for `C9_render_priority` at a concrete input. -/
theorem C9_render_priority_witness :
    formatCode (mkCell 0 0 0 1 0) = some (specRenderCode (mkCell 0 0 0 1 0)) :=
  C9_render_priority (delta_nt 1 0) 0 ['A'] ['A'] 0 0 (by decide) (by decide)
    (mkCell 0 0 0 1 0) (by decide)

/-! ### Amino-acid lookup and error propagation -/

lemma swEntryO_row0 (dltO : Char → Char → Option Int) (gap : Int) (s1 s2 : List Char)
    (j : Nat) : swEntryO dltO gap s1 s2 0 j = some (.int 0) := by
  rw [swEntryO]

lemma swEntryO_col0 (dltO : Char → Char → Option Int) (gap : Int) (s1 s2 : List Char)
    (i : Nat) : swEntryO dltO gap s1 s2 (i + 1) 0 = some (.int 0) := by
  rw [swEntryO]

lemma swEntryO_succ (dltO : Char → Char → Option Int) (gap : Int) (s1 s2 : List Char)
    (i j : Nat) :
    swEntryO dltO gap s1 s2 (i + 1) (j + 1) =
      (swEntryO dltO gap s1 s2 i j).bind (fun ed =>
        (swEntryO dltO gap s1 s2 i (j + 1)).bind (fun eu =>
          (swEntryO dltO gap s1 s2 (i + 1) j).bind (fun el =>
            (dltO (s1.getD j ' ') (s2.getD i ' ')).bind (fun sc =>
              some (Entry.cell (mkCell ed.value eu.value el.value sc gap)))))) := by
  rw [swEntryO]
  rfl

/-- If every lookup needed by cell `(i, j)` succeeds, the fallible
construction of that cell succeeds. -/
lemma swEntryO_ne_none (dltO : Char → Char → Option Int) (gap : Int)
    (s1 s2 : List Char) :
    ∀ N i j, i + j ≤ N →
      (∀ i' j', i' < i → j' < j → dltO (s1.getD j' ' ') (s2.getD i' ' ') ≠ none) →
      swEntryO dltO gap s1 s2 i j ≠ none := by
  intro N
  induction N with
  | zero =>
    intro i j h hdlt
    have hi0 : i = 0 := by omega
    rw [hi0, swEntryO_row0]
    simp
  | succ N ih =>
    intro i j h hdlt
    match i, j with
    | 0, j => rw [swEntryO_row0]; simp
    | i + 1, 0 => rw [swEntryO_col0]; simp
    | i + 1, j + 1 =>
      have hed := ih i j (by omega) (fun i' j' hi' hj' => hdlt i' j' (by omega) (by omega))
      have heu := ih i (j + 1) (by omega) (fun i' j' hi' hj' => hdlt i' j' (by omega) hj')
      have hel := ih (i + 1) j (by omega) (fun i' j' hi' hj' => hdlt i' j' hi' (by omega))
      obtain ⟨ed, hed⟩ := Option.ne_none_iff_exists'.mp hed
      obtain ⟨eu, heu⟩ := Option.ne_none_iff_exists'.mp heu
      obtain ⟨el, hel⟩ := Option.ne_none_iff_exists'.mp hel
      obtain ⟨sc, hsc⟩ := Option.ne_none_iff_exists'.mp
        (hdlt i j (by omega) (by omega))
      rw [swEntryO_succ, hed, heu, hel, hsc]
      simp

/-- A failed lookup at any in-range pair makes every cell depending on
it—in particular the cell at that pair—fail: the exception propagates,
and no defaulted cell is produced. -/
lemma swEntryO_eq_none (dltO : Char → Char → Option Int) (gap : Int)
    (s1 s2 : List Char) :
    ∀ N i j i' j', i + j ≤ N → i' ≤ i → j' ≤ j →
      dltO (s1.getD j' ' ') (s2.getD i' ' ') = none →
      swEntryO dltO gap s1 s2 (i + 1) (j + 1) = none := by
  intro N
  induction N with
  | zero =>
    intro i j i' j' h hi' hj' hdlt
    have hi0 : i = 0 := by omega
    have hj0 : j = 0 := by omega
    have hi0' : i' = 0 := by omega
    have hj0' : j' = 0 := by omega
    subst hi0; subst hj0; subst hi0'; subst hj0'
    rw [swEntryO_succ, swEntryO_row0, swEntryO_row0, swEntryO_col0]
    simp only [Option.some_bind]
    rw [hdlt]
    rfl
  | succ N ih =>
    intro i j i' j' h hi' hj' hdlt
    by_cases hii : i' = i
    · by_cases hjj : j' = j
      · subst hii; subst hjj
        rw [swEntryO_succ]
        rcases hE1 : swEntryO dltO gap s1 s2 i' j' with _ | ed
        · rfl
        · rcases hE2 : swEntryO dltO gap s1 s2 i' (j' + 1) with _ | eu
          · simp
          · rcases hE3 : swEntryO dltO gap s1 s2 (i' + 1) j' with _ | el
            · simp
            · simp only [Option.some_bind]
              rw [hdlt]
              rfl
      · have hj1 : ∃ j'', j = j'' + 1 := ⟨j - 1, by omega⟩
        obtain ⟨j'', rfl⟩ := hj1
        have hel : swEntryO dltO gap s1 s2 (i + 1) (j'' + 1) = none :=
          ih i j'' i' j' (by omega) hi' (by omega) hdlt
        rw [swEntryO_succ]
        rcases hE1 : swEntryO dltO gap s1 s2 i (j'' + 1) with _ | ed
        · rfl
        · rcases hE2 : swEntryO dltO gap s1 s2 i (j'' + 1 + 1) with _ | eu
          · simp
          · rw [hel]
            simp
    · have hi1 : ∃ i'', i = i'' + 1 := ⟨i - 1, by omega⟩
      obtain ⟨i'', rfl⟩ := hi1
      have heu : swEntryO dltO gap s1 s2 (i'' + 1) (j + 1) = none :=
        ih i'' j i' j' (by omega) (by omega) hj' hdlt
      rw [swEntryO_succ]
      rcases hE1 : swEntryO dltO gap s1 s2 (i'' + 1) j with _ | ed
      · rfl
      · rw [heu]
        simp

/-- The fallible construction fails at some in-range cell exactly when
some in-range symbol pair has no score. -/
lemma swEntryO_none_characterisation (dltO : Char → Char → Option Int) (gap : Int)
    (s1 s2 : List Char) :
    (∃ i, i < s2.length ∧ ∃ j, j < s1.length ∧
      swEntryO dltO gap s1 s2 (i + 1) (j + 1) = none) ↔
    (∃ i, i < s2.length ∧ ∃ j, j < s1.length ∧
      dltO (s1.getD j ' ') (s2.getD i ' ') = none) := by
  constructor
  · rintro ⟨i, hi, j, hj, hnone⟩
    by_contra hc
    push_neg at hc
    apply swEntryO_ne_none dltO gap s1 s2 (i + 1 + (j + 1)) (i + 1) (j + 1)
      (le_refl _) ?_ hnone
    intro i' j' hi' hj'
    exact hc i' (by omega) j' (by omega)
  · rintro ⟨i, hi, j, hj, hdlt⟩
    exact ⟨i, hi, j, hj,
      swEntryO_eq_none dltO gap s1 s2 (i + j) i j i j (le_refl _) (le_refl _)
        (le_refl _) hdlt⟩

/-- C3: in substitution (amino-acid) mode, score lookup case-normalises
both symbols, tries the concatenated key in the given order and on
failure the reversed order; it returns the stored value whenever either
ordered key is present, fails exactly when the pair is present in
neither order, and such a failure makes the fallible matrix construction
fail (never defaulting the cell to a score of 0). -/
theorem C3_substitution_lookup (tbl : List (String × Int)) (si sj : Char)
    (gap : Int) (s1 s2 : List Char) :
    (∀ v, List.lookup (String.mk [si.toUpper, sj.toUpper]) tbl = some v →
      delta_aa tbl si sj = some v) ∧
    (List.lookup (String.mk [si.toUpper, sj.toUpper]) tbl = none →
      delta_aa tbl si sj = List.lookup (String.mk [sj.toUpper, si.toUpper]) tbl) ∧
    (delta_aa tbl si sj = none ↔
      List.lookup (String.mk [si.toUpper, sj.toUpper]) tbl = none ∧
      List.lookup (String.mk [sj.toUpper, si.toUpper]) tbl = none) ∧
    ((∃ i, i < s2.length ∧ ∃ j, j < s1.length ∧
        swEntryO (delta_aa tbl) gap s1 s2 (i + 1) (j + 1) = none) ↔
      (∃ i, i < s2.length ∧ ∃ j, j < s1.length ∧
        delta_aa tbl (s1.getD j ' ') (s2.getD i ' ') = none)) := by
  refine ⟨?_, ?_, ?_, swEntryO_none_characterisation (delta_aa tbl) gap s1 s2⟩
  · intro v hv
    unfold delta_aa
    rw [hv]
  · intro hn
    unfold delta_aa
    rw [hn]
  · constructor
    · intro h
      rcases hE : List.lookup (String.mk [si.toUpper, sj.toUpper]) tbl with _ | v
      · refine ⟨rfl, ?_⟩
        unfold delta_aa at h
        rw [hE] at h
        exact h
      · unfold delta_aa at h
        rw [hE] at h
        exact absurd h (by simp)
    · rintro ⟨h1, h2⟩
      unfold delta_aa
      rw [h1]
      exact h2

/-- Witness for `C3_substitution_lookup` at a concrete input: the pair
`('C', 'A')` is found under the reversed key `"AC"`. -/
theorem C3_substitution_lookup_witness :
    delta_aa [("AC", 5)] 'C' 'A' = some 5 := by
  have h := (C3_substitution_lookup [("AC", 5)] 'C' 'A' 0 [] []).2.1
  rw [h (by decide)]
  decide

end SW
